import Mathlib

/-!
Verification of the Cub-file library (`cubfile.c`).

The C sources are shallowly embedded: an open seekable `FILE*` becomes a
`List Nat` of byte values, `fread`/`fseek` become list reads at explicit
positions, 32-bit machine words become `Nat` values below `2 ^ 32`
(assembled from bytes according to the host byte order), and the thread
state `errno` becomes an explicit parameter `e : Int` holding its value
when the operation starts (no modelled library call changes it; per the C
standard it is `0` at program startup).  Functions returning C `int`
status codes return `Int` (or a pair with the bytes written to the sink).
-/

set_option maxRecDepth 8000

deriving instance DecidableEq for Except

namespace Cubfile

/-- Host byte order.  The C code probes it at run time (`get_endian`); the
embedding passes it as an explicit parameter so both orders can be
reasoned about. -/
inductive Endian : Type
  | big
  | little
  deriving DecidableEq, Repr

/-- `uint32_t BIGENDIAN = 0xFFFFFFFF;` from `cubfile.c`. -/
def BIGENDIAN : Nat := 0xFFFFFFFF

/-- `uint32_t LITENDIAN = 0x00000000;` from `cubfile.c`. -/
def LITENDIAN : Nat := 0x00000000

/-- Modelled from the spec: the error codes of `cubfile.h` (the header is
not among the sources).  Their values are fixed by `print_error` in
`cubfile.c`, which indexes the table `OKAY, INVALID FILE, CORRUPT FILE,
OVERFLOW, NOT FOUND` with the negated code, and by the spec's error
taxonomy (`IoError` is a positive `errno`; format errors are negative). -/
def CUB_FILE_INVALID : Int := -1

/-- Modelled from the spec: see `CUB_FILE_INVALID`. -/
def CUB_FILE_CORRUPT : Int := -2

/-- Modelled from the spec: see `CUB_FILE_INVALID`. -/
def CUB_FILE_OVERFLOW : Int := -3

/-- Modelled from the spec: see `CUB_FILE_INVALID`. -/
def CUB_FILE_NOT_FOUND : Int := -4

/-- Modelled from the spec: `CUB_FILE_ASSEMBLY` is the largest recognized
block-type value of `enum CubFileType` in `cubfile.h` (absent from the
sources).  The spec records the enumeration as values 0–6 with assembly
last, matching the seven-entry `typenames` table in `cub_file_list`. -/
def CUB_FILE_ASSEMBLY : Nat := 6

/-- `struct CubFileBlock` (one TOC descriptor).  The `type` field is the
raw 32-bit `kind` word; `offset` and `length` are the payload location. -/
structure CubFileBlock : Type where
  type : Nat
  offset : Nat
  length : Nat
  deriving DecidableEq, Repr

/-- `get_endian` from `cubfile.c`: the CUBIT endian sentinel of the host
(reads the first memory byte of the integer 1: nonzero on a little-endian
host, selecting `LITENDIAN`; zero on a big-endian host, selecting
`BIGENDIAN`). -/
def get_endian : Endian → Nat
  | .big => BIGENDIAN
  | .little => LITENDIAN

/-- Byte of the file at position `i` (`0` past the end; reads past the
end are guarded separately, mirroring `fread`'s short-item count). -/
def byteAt (file : List Nat) (i : Nat) : Nat :=
  file.getD i 0

/-- Value of a 32-bit word whose four memory bytes, in increasing address
order, are `b0 b1 b2 b3`, as interpreted by a host of the given order. -/
def word_of_bytes : Endian → Nat → Nat → Nat → Nat → Nat
  | .little, b0, b1, b2, b3 => b0 + 256 * b1 + 65536 * b2 + 16777216 * b3
  | .big, b0, b1, b2, b3 => b3 + 256 * b2 + 65536 * b1 + 16777216 * b0

/-- The `uint32_t` obtained by `fread`ing 4 bytes at file position `p` on
a host of order `host`. -/
def readWord (host : Endian) (file : List Nat) (p : Nat) : Nat :=
  word_of_bytes host (byteAt file p) (byteAt file (p + 1))
    (byteAt file (p + 2)) (byteAt file (p + 3))

/-- `swap_bytes` from `cubfile.c` on a single 4-byte word: reversing the
four memory bytes of a `uint32_t` maps its value this way, on a host of
either order. -/
def swap32 (v : Nat) : Nat :=
  v / 16777216 % 256 + 256 * (v / 65536 % 256) + 65536 * (v / 256 % 256) +
    16777216 * (v % 256)

/-- A header/TOC word as the C code uses it: read at position `p`, then
byte-swapped when the swap flag is set. -/
def decodeWord (host : Endian) (sw : Bool) (file : List Nat) (p : Nat) : Nat :=
  if sw then swap32 (readWord host file p) else readWord host file p

/-- Conversion of a `uint32_t` value to a C `int` (32-bit two's
complement), as in `*count = data[2]`. -/
def toInt32 (n : Nat) : Int :=
  if n % 4294967296 < 2147483648 then (n % 4294967296 : Int)
  else (n % 4294967296 : Int) - 4294967296

/-- The four magic bytes compared by `memcmp(buffer, "CUBE", 4)`. -/
def cubeMagic : List Nat := [67, 85, 66, 69]

/-- `check_file_internal` from `cubfile.c`: seek to 0, read and check the
4-byte magic, read the six header words, validate the endian tag
(word 0), compute the swap flag, and return
(swap, block count word 2 as a C `int`, TOC offset word 3).
A short read returns the current `errno` (parameter `e`). -/
def check_file_internal (host : Endian) (file : List Nat) (e : Int) :
    Except Int (Bool × Int × Nat) :=
  if file.length < 4 then .error e
  else if file.take 4 ≠ cubeMagic then .error CUB_FILE_INVALID
  else if file.length < 28 then .error e
  else
    let d0 := readWord host file 4
    if d0 ≠ BIGENDIAN ∧ d0 ≠ LITENDIAN then .error CUB_FILE_CORRUPT
    else
      let sw : Bool := decide (d0 ≠ get_endian host)
      .ok (sw, toInt32 (decodeWord host sw file 12), decodeWord host sw file 16)

/-- `cub_file_check` from `cubfile.c`: `check_file_internal` with the TOC
offset dropped. -/
def cub_file_check (host : Endian) (file : List Nat) (e : Int) :
    Except Int (Bool × Int) :=
  match check_file_internal host file e with
  | .error r => .error r
  | .ok (sw, cnt, _) => .ok (sw, cnt)

/-- The TOC-reading loop of `cub_file_contents`: for `i` from the current
index up to the block count, `fread` one 24-byte record at the current
file position, swap if flagged, and store
`(type, offset, length) = (word 0, word 1, word 2)` into `blocks[i]`.
`remaining` counts the iterations still to run; a record extending past
the end of the file is a short `fread` and returns the current `errno`
with the descriptors written so far. -/
def toc_read_loop (host : Endian) (sw : Bool) (file : List Nat) (e : Int) :
    Nat → Nat → Nat → List CubFileBlock → Int × List CubFileBlock
  | _, _, 0, blocks => (0, blocks)
  | pos, i, remaining + 1, blocks =>
    if file.length < pos + 24 then (e, blocks)
    else
      toc_read_loop host sw file e (pos + 24) (i + 1) remaining
        (blocks.set i
          { type := decodeWord host sw file pos
            offset := decodeWord host sw file (pos + 4)
            length := decodeWord host sw file (pos + 8) })

/-- `cub_file_contents` from `cubfile.c`: validate the header, fail with
`CUB_FILE_OVERFLOW` when the caller capacity `blocks_length` is below the
block count, else seek to the TOC offset and run the reading loop.
`blocks` is the caller's destination array; it is returned (possibly
partially overwritten) alongside the status code. -/
def cub_file_contents (host : Endian) (file : List Nat)
    (blocks : List CubFileBlock) (blocks_length : Int) (e : Int) :
    Int × List CubFileBlock :=
  match check_file_internal host file e with
  | .error r => (r, blocks)
  | .ok (sw, count, offset) =>
    if blocks_length < count then (CUB_FILE_OVERFLOW, blocks)
    else toc_read_loop host sw file e offset 0 count.toNat blocks

/-- The `typenames` table of `cub_file_list`. -/
def typenames : List String :=
  ["?", "ACIS", "MESH", "FACET", "FREE MESH", "GRANITE", "ASSEMBLY"]

/-- The type-name column of `cub_file_list`:
`data[i].type <= CUB_FILE_ASSEMBLY ? typenames[data[i].type] : typenames[0]`.
The `getD` default is a sentinel that a lookup can only produce by going
out of the table's bounds. -/
def render_typename (t : Nat) : String :=
  if t ≤ CUB_FILE_ASSEMBLY then typenames.getD t "OUT-OF-BOUNDS"
  else typenames.getD 0 "OUT-OF-BOUNDS"

/-- One formatted row of the `cub_file_list` table. -/
structure ListRow : Type where
  idx : Nat
  typeName : String
  typeCode : Nat
  offset : Nat
  length : Nat
  deriving DecidableEq, Repr

/-- What `cub_file_list` writes to its output stream: a formatted error
message, the empty-TOC message, or the table of rows. -/
inductive ListOutcome : Type
  | errorMsg (code : Int)
  | emptyToc
  | table (rows : List ListRow)
  deriving DecidableEq, Repr

/-- `cub_file_list` from `cubfile.c`: check the header (errors become a
formatted message), report an empty TOC when the count is zero, else read
the TOC into a `count`-sized scratch buffer and print one row per
descriptor.  `malloc`'s uninitialized buffer is modelled as zeros; on
success every cell has been overwritten before it is read. -/
def cub_file_list (host : Endian) (file : List Nat) (e : Int) : ListOutcome :=
  match cub_file_check host file e with
  | .error r => .errorMsg r
  | .ok (_, count) =>
    if count = 0 then .emptyToc
    else
      match cub_file_contents host file
          (List.replicate count.toNat ⟨0, 0, 0⟩) count e with
      | (r, data) =>
        if r ≠ 0 then .errorMsg r
        else
          .table ((List.range count.toNat).map (fun i =>
            { idx := i
              typeName := render_typename (data.getD i ⟨0, 0, 0⟩).type
              typeCode := (data.getD i ⟨0, 0, 0⟩).type
              offset := (data.getD i ⟨0, 0, 0⟩).offset
              length := (data.getD i ⟨0, 0, 0⟩).length }))

/-- The copy loop of `internal_copy_data`.  Each iteration `fread`s
`min length 1024` bytes into the stack buffer — `fread` returns the
number of bytes still available, at most the request — and `fwrite`s them
to the sink (the in-memory sink accepts every write in full).  A read
returning zero bytes returns the current `errno` (parameter `e`).  `fuel`
is the recursion measure: it starts at `length` and every iteration that
recurses copies at least one byte, so it never runs out. -/
def internal_copy_loop (file : List Nat) (e : Int) :
    Nat → Nat → Nat → List Nat → Int × List Nat
  | _, _, 0, out => (0, out)
  | 0, _, _ + 1, out => (0, out)
  | fuel + 1, pos, length + 1, out =>
    let want := min (length + 1) 1024
    let count := min want (file.length - pos)
    if count = 0 then (e, out)
    else
      internal_copy_loop file e fuel (pos + count) (length + 1 - count)
        (out ++ (file.drop pos).take count)

/-- `internal_copy_data` from `cubfile.c`: seek the source to `offset`
(an in-memory seek always succeeds) and stream `length` bytes to the sink
through the 1024-byte buffer. -/
def internal_copy_data (file : List Nat) (offset length : Nat) (e : Int) :
    Int × List Nat :=
  internal_copy_loop file e length offset length []

/-- `cub_file_block` from `cubfile.c`: validate the header, treat a zero
block count as `CUB_FILE_CORRUPT`, read the TOC into a count-sized
scratch buffer, reject `block >= count` with `CUB_FILE_NOT_FOUND`, then
read `data[block].length` — for a negative `block` that access is out of
the buffer's bounds, undefined behavior in C, modelled as `none` — treat
a zero length as `CUB_FILE_NOT_FOUND`, and otherwise copy the payload. -/
def cub_file_block (host : Endian) (file : List Nat) (block : Int) (e : Int) :
    Option (Int × List Nat) :=
  match cub_file_check host file e with
  | .error r => some (r, [])
  | .ok (_, count) =>
    if count = 0 then some (CUB_FILE_CORRUPT, [])
    else
      match cub_file_contents host file
          (List.replicate count.toNat ⟨0, 0, 0⟩) count e with
      | (r, data) =>
        if r ≠ 0 then some (r, [])
        else if count ≤ block then some (CUB_FILE_NOT_FOUND, [])
        else if block < 0 then none
        else
          let d := data.getD block.toNat ⟨0, 0, 0⟩
          if d.length = 0 then some (CUB_FILE_NOT_FOUND, [])
          else some (internal_copy_data file d.offset d.length e)

/-- The scan loop of `cub_file_type`:
`for (i = 0; i < count && data[i].type != type; ++i);` — the index of the
first descriptor whose `type` matches, or the list's length if none. -/
def type_scan (t : Nat) : List CubFileBlock → Nat
  | [] => 0
  | b :: bs => if b.type = t then 0 else type_scan t bs + 1

/-- `cub_file_type` from `cubfile.c`: validate the header, treat a zero
block count as `CUB_FILE_CORRUPT`, read the TOC, scan for the first
descriptor whose `type` matches, fail with `CUB_FILE_NOT_FOUND` when
there is none or when that first match has zero length, and otherwise
copy its payload. -/
def cub_file_type (host : Endian) (file : List Nat) (t : Nat) (e : Int) :
    Int × List Nat :=
  match cub_file_check host file e with
  | .error r => (r, [])
  | .ok (_, count) =>
    if count = 0 then (CUB_FILE_CORRUPT, [])
    else
      match cub_file_contents host file
          (List.replicate count.toNat ⟨0, 0, 0⟩) count e with
      | (r, data) =>
        if r ≠ 0 then (r, [])
        else
          let i := type_scan t data
          if i = data.length ∨ (data.getD i ⟨0, 0, 0⟩).length = 0 then
            (CUB_FILE_NOT_FOUND, [])
          else
            (internal_copy_data file (data.getD i ⟨0, 0, 0⟩).offset
              (data.getD i ⟨0, 0, 0⟩).length e)

/-! ### Encoding a Cub file (from the on-disk layout in the spec, §6)

These definitions follow the spec's byte layout, not the C code: they
build the byte sequence the round-trip claims quantify over. -/

/-- The sentinel word recorded in a file written in the given order. -/
def endTag : Endian → Nat
  | .big => BIGENDIAN
  | .little => LITENDIAN

/-- The four bytes of the 32-bit value `v` laid out in the given byte
order. -/
def encodeWord : Endian → Nat → List Nat
  | .little, v => [v % 256, v / 256 % 256, v / 65536 % 256, v / 16777216 % 256]
  | .big, v => [v / 16777216 % 256, v / 65536 % 256, v / 256 % 256, v % 256]

/-- One 24-byte TOC record: type, offset, length, three reserved words. -/
def encodeEntry (o : Endian) (d : CubFileBlock) : List Nat :=
  encodeWord o d.type ++ encodeWord o d.offset ++ encodeWord o d.length ++
    encodeWord o 0 ++ encodeWord o 0 ++ encodeWord o 0

/-- The TOC: one record per descriptor, in file order. -/
def encodeToc (o : Endian) (ds : List CubFileBlock) : List Nat :=
  (ds.map (encodeEntry o)).flatten

/-- A whole Cub file in byte order `o`: magic, endian tag, reserved,
block count, TOC offset 28, two reserved words, then the TOC itself
immediately after the header. -/
def encodeCub (o : Endian) (ds : List CubFileBlock) : List Nat :=
  cubeMagic ++ encodeWord o (endTag o) ++ encodeWord o 0 ++
    encodeWord o ds.length ++ encodeWord o 28 ++ encodeWord o 0 ++
    encodeWord o 0 ++ encodeToc o ds

/-- Write the elements of `ds` into `b` at consecutive indices starting
at `i` — the cumulative effect of the TOC loop's stores. -/
def writeFrom (b : List CubFileBlock) (i : Nat) :
    List CubFileBlock → List CubFileBlock
  | [] => b
  | d :: ds => writeFrom (b.set i d) (i + 1) ds

/-! ### Concrete files used by witnesses and counterexamples -/

/-- The spec's end-to-end scenario (§8), with the payload placed right
after the TOC: magic, little-endian tag, two descriptors
`(kind 2, offset 76, length 10)` and `(kind 0, offset 86, length 0)`,
then ten payload bytes. -/
def specExample : List Nat :=
  encodeCub .little [⟨2, 76, 10⟩, ⟨0, 86, 0⟩] ++
    [10, 11, 12, 13, 14, 15, 16, 17, 18, 19]

/-- Two descriptors of the same kind 2: the first with zero length, the
second with the four payload bytes. -/
def dupTypeFile : List Nat :=
  encodeCub .little [⟨2, 76, 0⟩, ⟨2, 76, 4⟩] ++ [9, 9, 9, 9]

/-- A descriptor announcing 2000 payload bytes of which only 48 exist:
the payload is truncated. -/
def truncFile : List Nat :=
  encodeCub .little [⟨2, 52, 2000⟩] ++ List.replicate 48 7

/-- A well-formed file with an empty table of contents. -/
def emptyTocFile : List Nat := encodeCub .little []

/-- A descriptor whose kind word 99 lies outside the enumeration 0–6. -/
def unknownTypeFile : List Nat := encodeCub .little [⟨99, 52, 1⟩] ++ [5]

/-- Correct magic followed by the header word `0x00000012`, which is
neither endian sentinel. -/
def badTagFile : List Nat := cubeMagic ++ [18, 0, 0, 0] ++ List.replicate 20 0

/-! ### Claim theorems -/

/-- C7: any input whose first 4 bytes differ from the ASCII bytes "CUBE"
makes `cub_file_check` fail with `CUB_FILE_INVALID`, whatever the rest of
the file holds, provided the seek and the 4-byte read succeed (the file
has at least 4 bytes). -/
theorem cub_file_check_magic (host : Endian) (file : List Nat) (e : Int)
    (h4 : 4 ≤ file.length) (hm : file.take 4 ≠ cubeMagic) :
    cub_file_check host file e = .error CUB_FILE_INVALID := by
  unfold cub_file_check check_file_internal
  rw [if_neg (by omega), if_pos hm]

/-- Witness for C7: the four bytes `1 2 3 4` are long enough to read but
are not the magic, and `cub_file_check` indeed answers `CUB_FILE_INVALID`. -/
theorem cub_file_check_magic_witness :
    4 ≤ ([1, 2, 3, 4] : List Nat).length ∧
      ([1, 2, 3, 4] : List Nat).take 4 ≠ cubeMagic ∧
      cub_file_check .little [1, 2, 3, 4] 0 = .error CUB_FILE_INVALID :=
  ⟨by decide, by decide,
    cub_file_check_magic .little [1, 2, 3, 4] 0 (by decide) (by decide)⟩

/-- C8: with correct magic and a full header, a first header word equal
to neither sentinel makes `cub_file_check` fail with `CUB_FILE_CORRUPT`;
when the word is a sentinel the check succeeds and reports
`needs_swap` exactly when the word differs from the host's native-order
sentinel `get_endian host`. -/
theorem cub_file_check_endian_tag (host : Endian) (file : List Nat) (e : Int)
    (hm : file.take 4 = cubeMagic) (hlen : 28 ≤ file.length) :
    (readWord host file 4 ≠ BIGENDIAN ∧ readWord host file 4 ≠ LITENDIAN →
      cub_file_check host file e = .error CUB_FILE_CORRUPT) ∧
    (readWord host file 4 = BIGENDIAN ∨ readWord host file 4 = LITENDIAN →
      ∃ sw cnt, cub_file_check host file e = .ok (sw, cnt) ∧
        (sw = true ↔ readWord host file 4 ≠ get_endian host)) := by
  unfold cub_file_check check_file_internal
  rw [if_neg (by omega), if_neg (by simp [hm]), if_neg (by omega)]
  constructor
  · intro h
    rw [if_pos h]
  · intro h
    rw [if_neg (by tauto)]
    exact ⟨_, _, rfl, by simp⟩

/-- Witness for C8, applied twice: `badTagFile` has good magic, a full
header and the non-sentinel first word `0x12`, and the check answers
`CUB_FILE_CORRUPT`; a big-endian-tagged empty file examined on a
little-endian host reports a swap. -/
theorem cub_file_check_endian_tag_witness :
    (badTagFile.take 4 = cubeMagic ∧ 28 ≤ badTagFile.length ∧
      readWord .little badTagFile 4 ≠ BIGENDIAN ∧
      readWord .little badTagFile 4 ≠ LITENDIAN ∧
      cub_file_check .little badTagFile 0 = .error CUB_FILE_CORRUPT) ∧
    (readWord .little (encodeCub .big []) 4 = BIGENDIAN ∧
      ∃ sw cnt, cub_file_check .little (encodeCub .big []) 0 = .ok (sw, cnt) ∧
        (sw = true ↔ readWord .little (encodeCub .big []) 4 ≠ get_endian .little)) :=
  ⟨⟨by decide, by decide, by decide, by decide,
      (cub_file_check_endian_tag .little badTagFile 0 (by decide) (by decide)).1
        ⟨by decide, by decide⟩⟩,
    ⟨by decide,
      (cub_file_check_endian_tag .little (encodeCub .big []) 0 (by decide)
          (by decide)).2 (Or.inl (by decide))⟩⟩

/-- C6: when the header validates with block count `cnt`, calling
`cub_file_contents` with a destination capacity strictly below `cnt`
fails with `CUB_FILE_OVERFLOW` and hands back the destination array
untouched — nothing is written, within or beyond the capacity. -/
theorem read_toc_capacity_overflow (host : Endian) (file : List Nat)
    (e cap : Int) (sw : Bool) (cnt : Int) (off : Nat)
    (blocks : List CubFileBlock)
    (hchk : check_file_internal host file e = .ok (sw, cnt, off))
    (hcap : cap < cnt) :
    cub_file_contents host file blocks cap e = (CUB_FILE_OVERFLOW, blocks) := by
  unfold cub_file_contents
  rw [hchk]
  simp [hcap]

/-- Witness for C6: `specExample` validates with block count 2, and a
capacity-1 read overflows without touching the single-cell destination. -/
theorem read_toc_capacity_overflow_witness :
    check_file_internal .little specExample 0 = .ok (false, 2, 28) ∧
      (1 : Int) < 2 ∧
      cub_file_contents .little specExample [⟨5, 5, 5⟩] 1 0 =
        (CUB_FILE_OVERFLOW, [⟨5, 5, 5⟩]) :=
  ⟨by decide, by decide,
    read_toc_capacity_overflow .little specExample 0 1 false 2 28 [⟨5, 5, 5⟩]
      (by decide) (by decide)⟩

/-- C10: when the header validates with block count 0, `cub_file_block`
answers `CUB_FILE_CORRUPT` for every requested index and `cub_file_type`
answers `CUB_FILE_CORRUPT` for every requested type — not
`CUB_FILE_NOT_FOUND` — while `cub_file_list` treats the file as valid and
reports an empty table of contents. -/
theorem zero_block_count_behavior (host : Endian) (file : List Nat) (e : Int)
    (sw : Bool) (off : Nat)
    (hchk : check_file_internal host file e = .ok (sw, 0, off)) :
    (∀ block : Int, cub_file_block host file block e =
      some (CUB_FILE_CORRUPT, [])) ∧
    (∀ t : Nat, cub_file_type host file t e = (CUB_FILE_CORRUPT, [])) ∧
    cub_file_list host file e = ListOutcome.emptyToc := by
  refine ⟨fun block => ?_, fun t => ?_, ?_⟩ <;>
    simp [cub_file_block, cub_file_type, cub_file_list, cub_file_check, hchk]

/-- Witness for C10: `emptyTocFile` validates with block count 0;
extraction by index 3 and by type 5 both answer `CUB_FILE_CORRUPT`, and
the listing reports the empty table of contents. -/
theorem zero_block_count_behavior_witness :
    check_file_internal .little emptyTocFile 0 = .ok (false, 0, 28) ∧
      cub_file_block .little emptyTocFile 3 0 = some (CUB_FILE_CORRUPT, []) ∧
      cub_file_type .little emptyTocFile 5 0 = (CUB_FILE_CORRUPT, []) ∧
      cub_file_list .little emptyTocFile 0 = ListOutcome.emptyToc :=
  ⟨by decide,
    (zero_block_count_behavior .little emptyTocFile 0 false 28 (by decide)).1 3,
    (zero_block_count_behavior .little emptyTocFile 0 false 28 (by decide)).2.1 5,
    (zero_block_count_behavior .little emptyTocFile 0 false 28 (by decide)).2.2⟩

/-- The scan index never exceeds the list length. -/
theorem type_scan_le_length (t : Nat) (bs : List CubFileBlock) :
    type_scan t bs ≤ bs.length := by
  induction bs with
  | nil => simp [type_scan]
  | cons b bs ih =>
    by_cases h : b.type = t
    · simp [type_scan, h]
    · simp only [type_scan, if_neg h, List.length_cons]
      omega

/-- Every descriptor before the scan index has a non-matching type. -/
theorem type_scan_earlier_ne (t : Nat) (bs : List CubFileBlock) :
    ∀ j, j < type_scan t bs → (bs.getD j ⟨0, 0, 0⟩).type ≠ t := by
  induction bs with
  | nil => simp [type_scan]
  | cons b bs ih =>
    intro j hj
    by_cases h : b.type = t
    · simp [type_scan, h] at hj
    · rw [type_scan, if_neg h] at hj
      match j with
      | 0 =>
        simp only [List.getD_cons_zero]
        exact h
      | j + 1 => exact ih j (by omega)

/-- When the scan index is in range, the descriptor there matches. -/
theorem type_scan_found (t : Nat) (bs : List CubFileBlock)
    (h : type_scan t bs < bs.length) :
    (bs.getD (type_scan t bs) ⟨0, 0, 0⟩).type = t := by
  induction bs with
  | nil => simp [type_scan] at h
  | cons b bs ih =>
    by_cases hb : b.type = t
    · simp [type_scan, hb]
    · rw [type_scan, if_neg hb] at h ⊢
      simpa using ih (by simpa using h)

/-- C1 (amended): after a successful header and TOC parse,
`cub_file_type` scans the descriptors in file order and selects the first
one whose kind matches, regardless of its length; if there is no match,
or the first matching descriptor has zero length, it fails with
`CUB_FILE_NOT_FOUND` — even when a later descriptor of the same kind has
non-zero length — and otherwise it copies that first match's payload.
Being a pure function of the file, the selection is deterministic across
repeated calls. -/
theorem extract_by_type_first_match (host : Endian) (file : List Nat)
    (e : Int) (t : Nat) (sw : Bool) (cnt : Int) (off : Nat)
    (blocks : List CubFileBlock)
    (hchk : check_file_internal host file e = .ok (sw, cnt, off))
    (hcnt : ¬ cnt = 0)
    (hcont : cub_file_contents host file
      (List.replicate cnt.toNat ⟨0, 0, 0⟩) cnt e = (0, blocks)) :
    (∀ j, j < type_scan t blocks → (blocks.getD j ⟨0, 0, 0⟩).type ≠ t) ∧
    (type_scan t blocks < blocks.length →
      (blocks.getD (type_scan t blocks) ⟨0, 0, 0⟩).type = t) ∧
    (type_scan t blocks = blocks.length ∨
        (blocks.getD (type_scan t blocks) ⟨0, 0, 0⟩).length = 0 →
      cub_file_type host file t e = (CUB_FILE_NOT_FOUND, [])) ∧
    (type_scan t blocks < blocks.length →
      ¬ (blocks.getD (type_scan t blocks) ⟨0, 0, 0⟩).length = 0 →
      cub_file_type host file t e =
        internal_copy_data file
          (blocks.getD (type_scan t blocks) ⟨0, 0, 0⟩).offset
          (blocks.getD (type_scan t blocks) ⟨0, 0, 0⟩).length e) := by
  refine ⟨type_scan_earlier_ne t blocks, type_scan_found t blocks, ?_, ?_⟩
  · intro h
    simp only [cub_file_type, cub_file_check, hchk, hcont]
    rw [if_neg hcnt, if_neg (show ¬ (0 : Int) ≠ 0 by simp)]
    exact if_pos h
  · intro h1 h2
    simp only [cub_file_type, cub_file_check, hchk, hcont]
    rw [if_neg hcnt, if_neg (show ¬ (0 : Int) ≠ 0 by simp)]
    have hcond : ¬ (type_scan t blocks = blocks.length ∨
        (blocks.getD (type_scan t blocks) ⟨0, 0, 0⟩).length = 0) := by
      push_neg
      exact ⟨by omega, h2⟩
    exact if_neg hcond

/-- Counterexample for C1 as stated: in `dupTypeFile` the kind-2
descriptor at index 1 has non-zero length 4, yet `cub_file_type` answers
`CUB_FILE_NOT_FOUND` because the scan stopped at the zero-length kind-2
descriptor at index 0 — the claim predicted the index-1 payload would be
extracted and that `NotFound` needs every match to have zero length. -/
theorem extract_by_type_zero_length_counterexample :
    cub_file_contents .little dupTypeFile (List.replicate 2 ⟨0, 0, 0⟩) 2 0 =
      (0, [⟨2, 76, 0⟩, ⟨2, 76, 4⟩]) ∧
    cub_file_type .little dupTypeFile 2 0 = (CUB_FILE_NOT_FOUND, []) := by
  decide

/-- Witness for C1 (amended): on `specExample` the kind-2 scan selects
index 0 and the call reduces to copying that descriptor's payload at
offset 76, length 10. -/
theorem extract_by_type_first_match_witness :
    check_file_internal .little specExample 0 = .ok (false, 2, 28) ∧
      cub_file_contents .little specExample (List.replicate 2 ⟨0, 0, 0⟩) 2 0 =
        (0, [⟨2, 76, 10⟩, ⟨0, 86, 0⟩]) ∧
      cub_file_type .little specExample 2 0 =
        internal_copy_data specExample 76 10 0 :=
  ⟨by decide, by decide,
    (extract_by_type_first_match .little specExample 0 2 false 2 28
        [⟨2, 76, 10⟩, ⟨0, 86, 0⟩] (by decide) (by decide) (by decide)).2.2.2
      (by decide) (by decide)⟩

/-- C4 (amended): after a successful header and TOC parse,
`cub_file_block` fails with `CUB_FILE_NOT_FOUND` for every index at or
above the block count, and for every in-range index whose descriptor has
zero length — it never extracts zero bytes.  The lower bound is not
validated: a negative index reaches the out-of-bounds descriptor access
(see the counterexample). -/
theorem extract_by_index_bounds (host : Endian) (file : List Nat) (e : Int)
    (sw : Bool) (cnt : Int) (off : Nat) (blocks : List CubFileBlock)
    (hchk : check_file_internal host file e = .ok (sw, cnt, off))
    (hcnt : ¬ cnt = 0)
    (hcont : cub_file_contents host file
      (List.replicate cnt.toNat ⟨0, 0, 0⟩) cnt e = (0, blocks)) :
    (∀ block : Int, cnt ≤ block →
      cub_file_block host file block e = some (CUB_FILE_NOT_FOUND, [])) ∧
    (∀ block : Int, 0 ≤ block → block < cnt →
      (blocks.getD block.toNat ⟨0, 0, 0⟩).length = 0 →
      cub_file_block host file block e = some (CUB_FILE_NOT_FOUND, [])) := by
  constructor
  · intro block hb
    simp only [cub_file_block, cub_file_check, hchk, hcont]
    rw [if_neg hcnt, if_neg (show ¬ (0 : Int) ≠ 0 by simp), if_pos hb]
  · intro block h0 hlt hlen
    simp only [cub_file_block, cub_file_check, hchk, hcont]
    rw [if_neg hcnt, if_neg (show ¬ (0 : Int) ≠ 0 by simp),
      if_neg (show ¬ cnt ≤ block by omega),
      if_neg (show ¬ block < 0 by omega)]
    exact if_pos hlen

/-- Counterexample for C4 as stated: `specExample` parses with block
count 2, and the claim predicts `CUB_FILE_NOT_FOUND` for the
out-of-range index `-1`; instead the unchecked access `data[-1].length`
reads out of the descriptor buffer's bounds (undefined behavior, modelled
as `none`), which is not the `CUB_FILE_NOT_FOUND` return. -/
theorem extract_by_index_negative_counterexample :
    cub_file_block .little specExample (-1) 0 = none ∧
    (none : Option (Int × List Nat)) ≠ some (CUB_FILE_NOT_FOUND, []) := by
  decide

/-- Witness for C4 (amended): on `specExample` (block count 2), index 5
is at or above the count and fails with `CUB_FILE_NOT_FOUND`, and the
in-range index 1 whose descriptor has zero length also fails with
`CUB_FILE_NOT_FOUND`. -/
theorem extract_by_index_bounds_witness :
    check_file_internal .little specExample 0 = .ok (false, 2, 28) ∧
      cub_file_block .little specExample 5 0 = some (CUB_FILE_NOT_FOUND, []) ∧
      cub_file_block .little specExample 1 0 = some (CUB_FILE_NOT_FOUND, []) :=
  ⟨by decide,
    (extract_by_index_bounds .little specExample 0 false 2 28
        [⟨2, 76, 10⟩, ⟨0, 86, 0⟩] (by decide) (by decide) (by decide)).1 5
      (by decide),
    (extract_by_index_bounds .little specExample 0 false 2 28
        [⟨2, 76, 10⟩, ⟨0, 86, 0⟩] (by decide) (by decide) (by decide)).2 1
      (by decide) (by decide) (by decide)⟩

/-- C9: a descriptor whose kind word lies outside the recognized
enumeration 0–6 (99, `0xFFFFFFFF`, any larger word) is rendered by
`cub_file_list` with the generic placeholder name `?`, and every index
the ternary can feed the `typenames` table is within the table's bounds. -/
theorem listing_unknown_type_placeholder (host : Endian) (file : List Nat)
    (e : Int) (sw : Bool) (cnt : Int) (off : Nat)
    (blocks : List CubFileBlock) (i ty o l : Nat)
    (hchk : check_file_internal host file e = .ok (sw, cnt, off))
    (hcnt : ¬ cnt = 0)
    (hcont : cub_file_contents host file
      (List.replicate cnt.toNat ⟨0, 0, 0⟩) cnt e = (0, blocks))
    (hi : i < cnt.toNat)
    (hdesc : blocks.getD i ⟨0, 0, 0⟩ = ⟨ty, o, l⟩)
    (hty : CUB_FILE_ASSEMBLY < ty) :
    ∃ rows, cub_file_list host file e = ListOutcome.table rows ∧
      rows[i]? = some ⟨i, "?", ty, o, l⟩ ∧
      ∀ u, u ≤ CUB_FILE_ASSEMBLY → u < typenames.length := by
  have htab : cub_file_list host file e = ListOutcome.table
      ((List.range cnt.toNat).map (fun j =>
        { idx := j
          typeName := render_typename (blocks.getD j ⟨0, 0, 0⟩).type
          typeCode := (blocks.getD j ⟨0, 0, 0⟩).type
          offset := (blocks.getD j ⟨0, 0, 0⟩).offset
          length := (blocks.getD j ⟨0, 0, 0⟩).length })) := by
    simp only [cub_file_list, cub_file_check, hchk, hcont]
    rw [if_neg hcnt, if_neg (show ¬ (0 : Int) ≠ 0 by simp)]
  refine ⟨_, htab, ?_, by decide⟩
  rw [List.getElem?_map, List.getElem?_range hi]
  have hname : render_typename ty = "?" := by
    unfold render_typename
    rw [if_neg (by omega)]
    rfl
  simp only [Option.map_some']
  rw [hdesc]
  simp [hname]

/-- Witness for C9: `unknownTypeFile` carries a single descriptor of
kind 99, and its listing row shows the placeholder name `?`. -/
theorem listing_unknown_type_placeholder_witness :
    check_file_internal .little unknownTypeFile 0 = .ok (false, 1, 28) ∧
      ∃ rows, cub_file_list .little unknownTypeFile 0 =
          ListOutcome.table rows ∧
        rows[0]? = some ⟨0, "?", 99, 52, 1⟩ ∧
        ∀ u, u ≤ CUB_FILE_ASSEMBLY → u < typenames.length :=
  ⟨by decide,
    listing_unknown_type_placeholder .little unknownTypeFile 0 false 1 28
      [⟨99, 52, 1⟩] 0 99 52 1 (by decide) (by decide) (by decide) (by decide)
      (by decide) (by decide)⟩

/-- When the requested range lies inside the file, the copy loop
succeeds and appends exactly the bytes of that range to the sink. -/
theorem internal_copy_loop_ok (file : List Nat) (e : Int) (fuel : Nat) :
    ∀ (pos L : Nat) (out : List Nat), L ≤ fuel → pos + L ≤ file.length →
      internal_copy_loop file e fuel pos L out =
        (0, out ++ (file.drop pos).take L) := by
  induction fuel with
  | zero =>
    intro pos L out hL hpos
    have h0 : L = 0 := by omega
    subst h0
    simp [internal_copy_loop]
  | succ f ih =>
    intro pos L out hL hpos
    match L, hL, hpos with
    | 0, _, _ => simp [internal_copy_loop]
    | L + 1, hL, hpos =>
      simp only [internal_copy_loop]
      set c := min (min (L + 1) 1024) (file.length - pos) with hc
      rw [if_neg (show ¬ c = 0 by omega)]
      rw [ih (pos + c) (L + 1 - c) (out ++ (file.drop pos).take c) (by omega)
        (by omega)]
      rw [List.append_assoc]
      have hsplit : (file.drop pos).take (L + 1) =
          (file.drop pos).take c ++ (file.drop (pos + c)).take (L + 1 - c) := by
        rw [← List.drop_drop, ← List.take_add]
        congr 1
        omega
      rw [hsplit]

/-- `internal_copy_data` on a range inside the file: status 0 and the
sink holds exactly the source bytes of `[offset, offset + length)`. -/
theorem internal_copy_data_ok (file : List Nat) (offset length : Nat)
    (e : Int) (h : offset + length ≤ file.length) :
    internal_copy_data file offset length e =
      (0, (file.drop offset).take length) := by
  unfold internal_copy_data
  rw [internal_copy_loop_ok file e length offset length [] le_rfl h]
  simp

/-- C2: after a successful header and TOC parse, extracting the in-range
index `block` whose descriptor is `(t, offset, length)` with non-zero
`length`, when every read succeeds (the range lies inside the file),
writes exactly `length` bytes to the sink, byte-identical to the source
bytes in `[offset, offset + length)` — for every `length`, whatever its
relation to the 1024-byte chunk. -/
theorem extract_by_index_exact_copy (host : Endian) (file : List Nat)
    (e block : Int) (sw : Bool) (cnt : Int) (off : Nat)
    (blocks : List CubFileBlock) (t O L : Nat)
    (hchk : check_file_internal host file e = .ok (sw, cnt, off))
    (hcnt : ¬ cnt = 0)
    (hcont : cub_file_contents host file
      (List.replicate cnt.toNat ⟨0, 0, 0⟩) cnt e = (0, blocks))
    (h0 : 0 ≤ block) (hlt : block < cnt)
    (hdesc : blocks.getD block.toNat ⟨0, 0, 0⟩ = ⟨t, O, L⟩)
    (hL : ¬ L = 0)
    (hread : O + L ≤ file.length) :
    cub_file_block host file block e = some (0, (file.drop O).take L) ∧
      ((file.drop O).take L).length = L := by
  constructor
  · simp only [cub_file_block, cub_file_check, hchk, hcont]
    rw [if_neg hcnt, if_neg (show ¬ (0 : Int) ≠ 0 by simp),
      if_neg (show ¬ cnt ≤ block by omega),
      if_neg (show ¬ block < 0 by omega)]
    simp only [hdesc]
    rw [if_neg hL, internal_copy_data_ok file O L e hread]
  · rw [List.length_take, List.length_drop]
    omega

/-- Witness for C2: extracting index 0 of `specExample` copies exactly
the ten payload bytes at offsets 76–85. -/
theorem extract_by_index_exact_copy_witness :
    check_file_internal .little specExample 0 = .ok (false, 2, 28) ∧
      cub_file_block .little specExample 0 0 =
        some (0, (specExample.drop 76).take 10) ∧
      (specExample.drop 76).take 10 =
        [10, 11, 12, 13, 14, 15, 16, 17, 18, 19] ∧
      ((specExample.drop 76).take 10).length = 10 :=
  ⟨by decide,
    (extract_by_index_exact_copy .little specExample 0 0 false 2 28
        [⟨2, 76, 10⟩, ⟨0, 86, 0⟩] 2 76 10 (by decide) (by decide) (by decide)
        (by decide) (by decide) (by decide) (by decide) (by decide)).1,
    by decide,
    (extract_by_index_exact_copy .little specExample 0 0 false 2 28
        [⟨2, 76, 10⟩, ⟨0, 86, 0⟩] 2 76 10 (by decide) (by decide) (by decide)
        (by decide) (by decide) (by decide) (by decide) (by decide)).2⟩

/-- C5 (code bug): `truncFile` declares a 2000-byte payload of which
only 48 bytes exist.  The copy loop's read returns zero bytes with 1952
bytes still owed, and `internal_copy_data` executes `return errno` —
but a read that hits clean end-of-file sets no error, so `errno` still
holds its program-startup value 0 and `cub_file_block` reports success
after writing only 48 of the 2000 bytes, where the spec requires a
distinct `IoError` and forbids success after a short copy. -/
theorem truncated_copy_reports_success :
    cub_file_contents .little truncFile (List.replicate 1 ⟨0, 0, 0⟩) 1 0 =
      (0, [⟨2, 52, 2000⟩]) ∧
    cub_file_block .little truncFile 0 0 = some (0, List.replicate 48 7) ∧
    (List.replicate 48 7 : List Nat).length = 48 := by
  decide

/-- Both encodings of a word are four bytes long. -/
theorem encodeWord_length (o : Endian) (v : Nat) :
    (encodeWord o v).length = 4 := by
  cases o <;> rfl

/-- A TOC record is 24 bytes long. -/
theorem encodeEntry_length (o : Endian) (d : CubFileBlock) :
    (encodeEntry o d).length = 24 := by
  cases o <;> simp [encodeEntry, encodeWord]

/-- Byte-reversing twice restores a 32-bit value. -/
theorem swap32_swap32 (v : Nat) (hv : v < 4294967296) :
    swap32 (swap32 v) = v := by
  unfold swap32
  set b0 := v % 256 with hb0
  set b1 := v / 256 % 256 with hb1
  set b2 := v / 65536 % 256 with hb2
  set b3 := v / 16777216 % 256 with hb3
  have h0 : b0 < 256 := by omega
  have h1 : b1 < 256 := by omega
  have h2 : b2 < 256 := by omega
  have h3 : b3 < 256 := by omega
  have hv4 : v = b0 + 256 * b1 + 65536 * b2 + 16777216 * b3 := by omega
  clear_value b0 b1 b2 b3
  clear hb0 hb1 hb2 hb3 hv
  subst hv4
  have d1 : (b3 + 256 * b2 + 65536 * b1 + 16777216 * b0) / 256 =
      b2 + 256 * b1 + 65536 * b0 := by omega
  have d2 : (b3 + 256 * b2 + 65536 * b1 + 16777216 * b0) / 65536 =
      b1 + 256 * b0 := by omega
  have d3 : (b3 + 256 * b2 + 65536 * b1 + 16777216 * b0) / 16777216 = b0 := by
    omega
  rw [d1, d2, d3]
  omega

/-- A lookup in a concatenation at an offset of the middle part's span. -/
theorem getD_append_at (pre mid suf : List Nat) (k : Nat)
    (hk : k < mid.length) :
    (pre ++ (mid ++ suf)).getD (pre.length + k) 0 = mid.getD k 0 := by
  rw [List.getD_append_right _ _ _ _ (by omega), Nat.add_sub_cancel_left]
  exact List.getD_append _ _ _ _ hk

/-- Reading a word at the boundary between `pre` and a 4-byte group
assembles exactly that group's bytes. -/
theorem readWord_append (h : Endian) (pre w suf : List Nat)
    (hw : w.length = 4) :
    readWord h (pre ++ (w ++ suf)) pre.length =
      word_of_bytes h (w.getD 0 0) (w.getD 1 0) (w.getD 2 0) (w.getD 3 0) := by
  unfold readWord byteAt
  have e0 : (pre ++ (w ++ suf)).getD pre.length 0 = w.getD 0 0 := by
    simpa using getD_append_at pre w suf 0 (by omega)
  rw [e0, getD_append_at pre w suf 1 (by omega),
    getD_append_at pre w suf 2 (by omega), getD_append_at pre w suf 3 (by omega)]

/-- A host of the encoding's own order reads the value back; the other
host reads its byte-reversal. -/
theorem word_of_bytes_encodeWord (h o : Endian) (v : Nat)
    (hv : v < 4294967296) :
    word_of_bytes h ((encodeWord o v).getD 0 0) ((encodeWord o v).getD 1 0)
      ((encodeWord o v).getD 2 0) ((encodeWord o v).getD 3 0) =
      if h = o then v else swap32 v := by
  cases h <;> cases o <;> simp [encodeWord, word_of_bytes, swap32] <;> omega

/-- The header/TOC decode of a word encoded in order `o`, under the swap
flag the header computes for a file tagged with order `o`, restores the
encoded value on a host of either order. -/
theorem decodeWord_encode (hst o : Endian) (sw : Bool)
    (hsw : sw = decide (¬ endTag o = get_endian hst))
    (pre suf : List Nat) (v : Nat) (hv : v < 4294967296) :
    decodeWord hst sw (pre ++ (encodeWord o v ++ suf)) pre.length = v := by
  subst hsw
  unfold decodeWord
  rw [readWord_append _ _ _ _ (encodeWord_length o v),
    word_of_bytes_encodeWord _ _ _ hv]
  cases hst <;> cases o <;>
    simp [endTag, get_endian, BIGENDIAN, LITENDIAN] <;>
    exact swap32_swap32 v hv

/-- One step of `writeFrom` into the head of a longer list. -/
theorem writeFrom_cons (a : CubFileBlock) (b : List CubFileBlock) (i : Nat)
    (ds : List CubFileBlock) :
    writeFrom (a :: b) (i + 1) ds = a :: writeFrom b i ds := by
  induction ds generalizing a b i with
  | nil => rfl
  | cons d ds ih =>
    show writeFrom ((a :: b).set (i + 1) d) (i + 2) ds =
      a :: writeFrom (b.set i d) (i + 1) ds
    exact ih a (b.set i d) (i + 1)

/-- Writing a full descriptor list over a same-length scratch buffer
yields exactly that list. -/
theorem writeFrom_replicate (ds : List CubFileBlock) (x : CubFileBlock) :
    writeFrom (List.replicate ds.length x) 0 ds = ds := by
  induction ds with
  | nil => rfl
  | cons d ds ih =>
    show writeFrom ((List.replicate (ds.length + 1) x).set 0 d) 1 ds =
      d :: ds
    rw [show (List.replicate (ds.length + 1) x).set 0 d =
      d :: List.replicate ds.length x from rfl]
    rw [show (1 : Nat) = 0 + 1 from rfl, writeFrom_cons, ih]

/-- `decodeWord_encode` shifted past one leading 4-byte word. -/
theorem decodeWord_encode4 (hst o : Endian) (sw : Bool)
    (hsw : sw = decide (¬ endTag o = get_endian hst))
    (pre w1 suf : List Nat) (hw1 : w1.length = 4) (v : Nat)
    (hv : v < 4294967296) :
    decodeWord hst sw (pre ++ (w1 ++ (encodeWord o v ++ suf)))
      (pre.length + 4) = v := by
  have hp : pre.length + 4 = (pre ++ w1).length := by simp [hw1]
  have hf : pre ++ (w1 ++ (encodeWord o v ++ suf)) =
      (pre ++ w1) ++ (encodeWord o v ++ suf) := (List.append_assoc pre w1 _).symm
  rw [hp, hf]
  exact decodeWord_encode hst o sw hsw (pre ++ w1) suf v hv

/-- `decodeWord_encode` shifted past two leading 4-byte words. -/
theorem decodeWord_encode8 (hst o : Endian) (sw : Bool)
    (hsw : sw = decide (¬ endTag o = get_endian hst))
    (pre w1 w2 suf : List Nat) (hw1 : w1.length = 4) (hw2 : w2.length = 4)
    (v : Nat) (hv : v < 4294967296) :
    decodeWord hst sw (pre ++ (w1 ++ (w2 ++ (encodeWord o v ++ suf))))
      (pre.length + 8) = v := by
  have hp : pre.length + 8 = ((pre ++ w1) ++ w2).length := by
    simp only [List.length_append, hw1, hw2]
  have hf : pre ++ (w1 ++ (w2 ++ (encodeWord o v ++ suf))) =
      ((pre ++ w1) ++ w2) ++ (encodeWord o v ++ suf) := by
    simp [List.append_assoc]
  rw [hp, hf]
  exact decodeWord_encode hst o sw hsw ((pre ++ w1) ++ w2) suf v hv

/-- `decodeWord_encode` shifted past three leading 4-byte words. -/
theorem decodeWord_encode12 (hst o : Endian) (sw : Bool)
    (hsw : sw = decide (¬ endTag o = get_endian hst))
    (pre w1 w2 w3 suf : List Nat) (hw1 : w1.length = 4) (hw2 : w2.length = 4)
    (hw3 : w3.length = 4) (v : Nat) (hv : v < 4294967296) :
    decodeWord hst sw
      (pre ++ (w1 ++ (w2 ++ (w3 ++ (encodeWord o v ++ suf)))))
      (pre.length + 12) = v := by
  have hp : pre.length + 12 = (((pre ++ w1) ++ w2) ++ w3).length := by
    simp only [List.length_append, hw1, hw2, hw3]
  have hf : pre ++ (w1 ++ (w2 ++ (w3 ++ (encodeWord o v ++ suf)))) =
      (((pre ++ w1) ++ w2) ++ w3) ++ (encodeWord o v ++ suf) := by
    simp [List.append_assoc]
  rw [hp, hf]
  exact decodeWord_encode hst o sw hsw (((pre ++ w1) ++ w2) ++ w3) suf v hv

/-- The TOC loop over an encoded TOC placed right after `pre` decodes
every record back to the descriptor it encodes, on a host of either
order. -/
theorem toc_read_loop_encode (hst o : Endian) (sw : Bool)
    (hsw : sw = decide (¬ endTag o = get_endian hst)) (e : Int) :
    ∀ ds : List CubFileBlock,
      (∀ d ∈ ds, d.type < 4294967296 ∧ d.offset < 4294967296 ∧
        d.length < 4294967296) →
      ∀ (pre : List Nat) (i : Nat) (b : List CubFileBlock),
        toc_read_loop hst sw (pre ++ encodeToc o ds) e pre.length i
          ds.length b = (0, writeFrom b i ds) := by
  intro ds
  induction ds with
  | nil =>
    intro _ pre i b
    simp [encodeToc, toc_read_loop, writeFrom]
  | cons d ds ih =>
    intro hds pre i b
    have hd := hds d (List.mem_cons_self d ds)
    have hfile : pre ++ encodeToc o (d :: ds) =
        pre ++ (encodeWord o d.type ++ (encodeWord o d.offset ++
          (encodeWord o d.length ++ (encodeWord o 0 ++ (encodeWord o 0 ++
            (encodeWord o 0 ++ encodeToc o ds)))))) := by
      simp [encodeToc, encodeEntry, List.append_assoc]
    rw [List.length_cons, hfile]
    simp only [toc_read_loop]
    rw [if_neg (by simp [encodeWord_length]; omega)]
    rw [decodeWord_encode hst o sw hsw pre _ d.type hd.1,
      decodeWord_encode4 hst o sw hsw pre _ _ (encodeWord_length o d.type)
        d.offset hd.2.1,
      decodeWord_encode8 hst o sw hsw pre _ _ _ (encodeWord_length o d.type)
        (encodeWord_length o d.offset) d.length hd.2.2]
    have hp24 : pre.length + 24 = (pre ++ encodeEntry o d).length := by
      simp [encodeEntry_length]
    have hf24 : pre ++ (encodeWord o d.type ++ (encodeWord o d.offset ++
        (encodeWord o d.length ++ (encodeWord o 0 ++ (encodeWord o 0 ++
          (encodeWord o 0 ++ encodeToc o ds)))))) =
        (pre ++ encodeEntry o d) ++ encodeToc o ds := by
      simp [encodeEntry, List.append_assoc]
    rw [hp24, hf24,
      show writeFrom b i (d :: ds) = writeFrom (b.set i d) (i + 1) ds from rfl]
    exact ih (fun d' hd' => hds d' (List.mem_cons_of_mem d hd'))
      (pre ++ encodeEntry o d) (i + 1) (b.set i d)

/-- A block count below `2^31` survives the `uint32_t` to `int`
conversion unchanged. -/
theorem toInt32_small (n : Nat) (h : n < 2147483648) : toInt32 n = (n : Int) := by
  unfold toInt32
  rw [Nat.mod_eq_of_lt (show n < 4294967296 by omega), if_pos h]
  omega

/-- The header check of an encoded file succeeds, computing the swap
flag from the file's tag and the host's order, block count `ds.length`
and TOC offset 28, on a host of either order. -/
theorem check_file_internal_encode (hst o : Endian) (e : Int)
    (ds : List CubFileBlock) (hn : ds.length < 2147483648) :
    check_file_internal hst (encodeCub o ds) e =
      .ok (decide (¬ endTag o = get_endian hst), (ds.length : Int), 28) := by
  have hlen : (encodeCub o ds).length = 28 + (encodeToc o ds).length := by
    simp [encodeCub, cubeMagic, encodeWord_length]
    omega
  have hassoc : cubeMagic ++ (encodeWord o (endTag o) ++ (encodeWord o 0 ++
      (encodeWord o ds.length ++ (encodeWord o 28 ++ (encodeWord o 0 ++
        (encodeWord o 0 ++ encodeToc o ds)))))) = encodeCub o ds := by
    simp [encodeCub, List.append_assoc]
  have htake : (encodeCub o ds).take 4 = cubeMagic := by
    rw [← hassoc, show (4 : Nat) = cubeMagic.length from rfl, List.take_left]
  have hd0 : readWord hst (encodeCub o ds) 4 = endTag o := by
    have h := readWord_append hst cubeMagic (encodeWord o (endTag o))
      (encodeWord o 0 ++ (encodeWord o ds.length ++ (encodeWord o 28 ++
        (encodeWord o 0 ++ (encodeWord o 0 ++ encodeToc o ds)))))
      (encodeWord_length o (endTag o))
    rw [word_of_bytes_encodeWord hst o (endTag o)
      (by cases o <;> decide)] at h
    have hsw32 : swap32 (endTag o) = endTag o := by cases o <;> decide
    have hval : (if hst = o then endTag o else swap32 (endTag o)) =
        endTag o := by
      by_cases hh : hst = o
      · rw [if_pos hh]
      · rw [if_neg hh, hsw32]
    rw [hval, hassoc] at h
    exact h
  have hcnt12 : decodeWord hst (decide (¬ endTag o = get_endian hst))
      (encodeCub o ds) 12 = ds.length := by
    have h := decodeWord_encode8 hst o _ rfl cubeMagic
      (encodeWord o (endTag o)) (encodeWord o 0)
      (encodeWord o 28 ++ (encodeWord o 0 ++ (encodeWord o 0 ++
        encodeToc o ds)))
      (encodeWord_length o (endTag o)) (encodeWord_length o 0) ds.length
      (by omega)
    rw [hassoc] at h
    exact h
  have hoff16 : decodeWord hst (decide (¬ endTag o = get_endian hst))
      (encodeCub o ds) 16 = 28 := by
    have h := decodeWord_encode12 hst o _ rfl cubeMagic
      (encodeWord o (endTag o)) (encodeWord o 0) (encodeWord o ds.length)
      (encodeWord o 0 ++ (encodeWord o 0 ++ encodeToc o ds))
      (encodeWord_length o (endTag o)) (encodeWord_length o 0)
      (encodeWord_length o ds.length) 28 (by omega)
    rw [hassoc] at h
    exact h
  unfold check_file_internal
  rw [if_neg (by omega), if_neg (by simp [htake]), if_neg (by omega)]
  simp only [hd0]
  rw [if_neg (by cases o <;> simp [endTag, BIGENDIAN, LITENDIAN])]
  rw [hcnt12, hoff16, toInt32_small ds.length hn]

/-- C3: a TOC encoded in either byte order and decoded on a host of
either native order yields the same descriptor values (type, offset,
length) — the original list, so the result is independent of the
(file order, host order) pairing. -/
theorem read_toc_endian_roundtrip (ds : List CubFileBlock)
    (hds : ∀ d ∈ ds, d.type < 4294967296 ∧ d.offset < 4294967296 ∧
      d.length < 4294967296)
    (hn : ds.length < 2147483648) (e : Int) (hst o : Endian) :
    cub_file_contents hst (encodeCub o ds)
      (List.replicate ds.length ⟨0, 0, 0⟩) (ds.length : Int) e = (0, ds) := by
  simp only [cub_file_contents, check_file_internal_encode hst o e ds hn]
  rw [if_neg (lt_irrefl _)]
  rw [Int.toNat_ofNat]
  rw [show encodeCub o ds =
    (cubeMagic ++ encodeWord o (endTag o) ++ encodeWord o 0 ++
      encodeWord o ds.length ++ encodeWord o 28 ++ encodeWord o 0 ++
      encodeWord o 0) ++ encodeToc o ds by simp [encodeCub, List.append_assoc]]
  nth_rewrite 2 [show (28 : Nat) =
    (cubeMagic ++ encodeWord o (endTag o) ++ encodeWord o 0 ++
      encodeWord o ds.length ++ encodeWord o 28 ++ encodeWord o 0 ++
      encodeWord o 0).length by simp [cubeMagic, encodeWord_length]]
  rw [toc_read_loop_encode hst o _ rfl e ds hds _ 0 _]
  rw [writeFrom_replicate]

/-- Witness for C3: the spec's two-descriptor TOC, encoded big-endian
and decoded on a little-endian host and vice versa, decodes to the same
descriptor values both ways. -/
theorem read_toc_endian_roundtrip_witness :
    (∀ d ∈ [(⟨2, 52, 10⟩ : CubFileBlock), ⟨0, 62, 0⟩],
      d.type < 4294967296 ∧ d.offset < 4294967296 ∧ d.length < 4294967296) ∧
    cub_file_contents .little (encodeCub .big [⟨2, 52, 10⟩, ⟨0, 62, 0⟩])
      (List.replicate 2 ⟨0, 0, 0⟩) 2 0 = (0, [⟨2, 52, 10⟩, ⟨0, 62, 0⟩]) ∧
    cub_file_contents .big (encodeCub .little [⟨2, 52, 10⟩, ⟨0, 62, 0⟩])
      (List.replicate 2 ⟨0, 0, 0⟩) 2 0 = (0, [⟨2, 52, 10⟩, ⟨0, 62, 0⟩]) :=
  ⟨by decide,
    read_toc_endian_roundtrip [⟨2, 52, 10⟩, ⟨0, 62, 0⟩] (by decide)
      (by decide) 0 .little .big,
    read_toc_endian_roundtrip [⟨2, 52, 10⟩, ⟨0, 62, 0⟩] (by decide)
      (by decide) 0 .big .little⟩

end Cubfile
